import Mathlib

/-!
Verification of the file-based terminal menu system (`menu.py`).

The development shallowly embeds the metadata reader, menu enumerator,
argument collector, executor command construction and navigator input
handling of the source into Lean.

Modelling conventions:
* A script file is `Option (List String)`: `none` models a file whose
  open or read raises `IOError`/`UnicodeDecodeError` (caught by the
  source and degraded to "no metadata"); `some lines` models a readable
  text file split into newline-free lines.
* Python `str.strip` is modelled by `stripChars`/`stripStr` over the
  character list (whitespace per `Char.isWhitespace`; the exotic
  Python-only whitespace such as form feed is outside the model).
* Python `str.replace(pat, '')` is modelled by `replaceAll`, a
  left-to-right non-overlapping scan, exactly as CPython performs it.
* The regular expression `# ARG:\s*(\S+)\s+"([^"]*)"\s+"([^"]*)"`,
  applied with `re.match` (anchored at the start, trailing text
  allowed), backtracks deterministically for this pattern, so it is
  embedded as the deterministic scanner `parseArgChars`.
* The navigator loop body is embedded as the pure step function
  `loop_step`, mapping one line of user input to the action the loop
  takes (`LoopOutcome`); `sys.exit(0)` is `.exit 0`, `break` is `.pop`,
  an inline error plus redisplay of the same menu is `.errorRedisplay`,
  and an (unreachable) uncaught `IndexError` is `.indexError`.
-/

/-! ## Character and string primitives mirroring Python built-ins -/

/-- Whitespace test used by the model of `str.strip` and of `\s`. -/
def isSpace (c : Char) : Bool := c.isWhitespace

/-- Complement of `isSpace`, the model of `\S`. -/
def notSpace (c : Char) : Bool := !c.isWhitespace

/-- Character other than a double quote, the model of `[^"]`. -/
def notQuote (c : Char) : Bool := c != '"'

/-- Python `str.strip` on a character list: drop whitespace at both ends. -/
def stripChars (cs : List Char) : List Char :=
  ((cs.dropWhile isSpace).reverse.dropWhile isSpace).reverse

/-- Python `str.strip` on a string. -/
def stripStr (s : String) : String := ⟨stripChars s.data⟩

/-- Fuelled worker for `replaceAll`; the fuel is an upper bound on the
number of characters consumed, so `cs.length` always suffices. -/
def replaceAllAux (pat : List Char) : Nat → List Char → List Char
  | _, [] => []
  | 0, cs => cs
  | fuel + 1, c :: rest =>
    if pat.isPrefixOf (c :: rest) then
      replaceAllAux pat fuel ((c :: rest).drop pat.length)
    else
      c :: replaceAllAux pat fuel rest

/-- Python `s.replace(pat, '')`: remove every non-overlapping occurrence
of `pat`, scanning left to right. An empty pattern leaves `cs` unchanged
(Python inserts the empty replacement, which is also a no-op). -/
def replaceAll (pat cs : List Char) : List Char :=
  if pat.isEmpty then cs else replaceAllAux pat cs.length cs

/-- Python `str.isdigit` restricted to ASCII digit strings: nonempty and
all characters `0`-`9`. -/
def isdigitStr (s : String) : Bool := !s.data.isEmpty && s.data.all Char.isDigit

/-- Python `int` on a digit string. -/
def strToNat (s : String) : Nat :=
  s.data.foldl (fun n c => n * 10 + (c.toNat - '0'.toNat)) 0

/-! ## Metadata Reader (`get_metadata`, `get_label`, `needs_sudo`) -/

/-- The marker `# <key>:` built by the f-string in `get_metadata`. -/
def markerOf (key : String) : List Char := '#' :: ' ' :: (key.data ++ [':'])

/-- Test of `line.strip().startswith('# <key>:')` from `get_metadata`. -/
def lineMatches (key : String) (line : String) : Bool :=
  (markerOf key).isPrefixOf (stripChars line.data)

/-- The value `line.replace('# <key>:', '').strip()` returned by
`get_metadata` for a matching line. -/
def extractValue (key : String) (line : String) : List Char :=
  stripChars (replaceAll (markerOf key) line.data)

/-- The scan inside `get_metadata`: return the extracted value of the
first matching line, `none` when no line matches. -/
def scanMeta (key : String) : List String → Option String
  | [] => none
  | l :: ls => if lineMatches key l then some ⟨extractValue key l⟩ else scanMeta key ls

/-- `get_metadata(item_path, key)`: `none` for an unreadable file and for
a file with no matching line, otherwise the first matching line's value. -/
def get_metadata (file : Option (List String)) (key : String) : Option String :=
  match file with
  | none => none
  | some lines => scanMeta key lines

/-- `get_label(item_path)`: the LABEL metadata when truthy, else the base
name of the path (passed here as `basename`). -/
def get_label (file : Option (List String)) (basename : String) : String :=
  match get_metadata file "LABEL" with
  | some label => if label = "" then basename else label
  | none => basename

/-- `needs_sudo(item_path)`: whether the SUDO metadata equals `'true'`
(Python `get_metadata(...) == 'true'`, false when the metadata is `None`). -/
def needs_sudo (file : Option (List String)) : Bool :=
  match get_metadata file "SUDO" with
  | some v => decide (v = "true")
  | none => false

/-! ## ARG-line parser (`get_script_args`) -/

/-- The literal `# ARG:` at the head of the argument regex. -/
def argMarker : List Char := ['#', ' ', 'A', 'R', 'G', ':']

/-- Match a literal prefix, returning the remaining characters. -/
def dropLiteral : List Char → List Char → Option (List Char)
  | [], cs => some cs
  | _ :: _, [] => none
  | p :: ps, c :: cs => if c = p then dropLiteral ps cs else none

/-- Whether `\s+` can start consuming here: the head character exists and
is whitespace. -/
def headSpace : List Char → Bool
  | [] => false
  | c :: _ => isSpace c

/-- The regex fragment `\s+"`: at least one whitespace character, then a
double quote; returns the characters after the quote. -/
def wsThenQuote (cs : List Char) : Option (List Char) :=
  if headSpace cs then
    match cs.dropWhile isSpace with
    | [] => none
    | q :: rest => if q = '"' then some rest else none
  else none

/-- The regex fragment `([^"]*)"`: the quote-free content up to the next
double quote (which must exist), and the characters after that quote. -/
def quoted (cs : List Char) : Option (List Char × List Char) :=
  match cs.dropWhile notQuote with
  | [] => none
  | q :: rest => if q = '"' then some (cs.takeWhile notQuote, rest) else none

/-- `re.match` of `# ARG:\s*(\S+)\s+"([^"]*)"\s+"([^"]*)"` against a
(stripped) line, as the equivalent deterministic scan: the pattern's
greedy pieces admit no observable backtracking, so each step is forced. -/
def parseArgChars (cs0 : List Char) : Option (String × String × String) :=
  (dropLiteral argMarker cs0).bind fun cs1 =>
    let name := (cs1.dropWhile isSpace).takeWhile notSpace
    if name.isEmpty then none
    else
      (wsThenQuote ((cs1.dropWhile isSpace).dropWhile notSpace)).bind fun rest1 =>
        (quoted rest1).bind fun pc =>
          (wsThenQuote pc.2).bind fun rest2 =>
            (quoted rest2).bind fun dc =>
              some (⟨name⟩, ⟨pc.1⟩, ⟨dc.1⟩)

/-- `get_script_args(item_path)`: the `(name, prompt, default)` triple of
every line whose stripped form matches the ARG regex, in file order;
empty for an unreadable file. -/
def get_script_args (file : Option (List String)) : List (String × String × String) :=
  match file with
  | none => []
  | some lines => lines.filterMap (fun l => parseArgChars (stripChars l.data))

/-! ## Argument Collector and Executor (`run_script`) -/

/-- The collection loop of `run_script`: one `input()` line per declared
spec, recording the raw input when non-empty and the declared default
otherwise (`user_input or default`), together with the `(prompt, default)`
pairs rendered to the user. `none` models `input()` hitting end of input
(an uncaught `EOFError`), which cannot happen when enough input lines are
supplied. -/
def collect_args :
    List (String × String × String) → List String →
      Option (List String × List (String × String))
  | [], _ => some ([], [])
  | _ :: _, [] => none
  | (_, p, d) :: specs, inp :: inputs =>
    match collect_args specs inputs with
    | none => none
    | some (vals, prompts) =>
      some ((if inp = "" then d else inp) :: vals, (p, d) :: prompts)

/-- The command constructed by `run_script`: optional `sudo -E` prefix
when the SUDO metadata is `'true'`, then the target path, then the
collected arguments, each a discrete `argv` token. -/
def build_command (selected_item_path : String) (file : Option (List String))
    (collected_args : List String) : List String :=
  let command : List String := []
  let command := if needs_sudo file then command ++ ["sudo", "-E"] else command
  let command := command ++ [selected_item_path]
  command ++ collected_args

/-! ## Menu Enumerator (`get_menu_items`) -/

/-- The facts the enumerator can observe about one directory child:
`os.path.isdir`, whether the child is a regular file, and the outcome of
the `os.access(path, X_OK)` probe. -/
structure EntryAttr where
  isDir : Bool
  isReg : Bool
  xok : Bool

/-- Ascending code-point (lexicographic) comparison on character lists,
the order Python's `sorted` uses for strings. -/
def lexLe : List Char → List Char → Bool
  | [], _ => true
  | _ :: _, [] => false
  | a :: as, b :: bs =>
    if a.toNat < b.toNat then true
    else if b.toNat < a.toNat then false
    else lexLe as bs

/-- Ascending lexicographic order on strings. -/
def strLe (s t : String) : Prop := lexLe s.data t.data = true

instance : DecidableRel strLe := fun s t => by
  unfold strLe; infer_instance

/-- `get_menu_items(menu_path)`: the children's names sorted ascending,
keeping exactly those passing `os.access(path, X_OK) or os.path.isdir(path)`.
`names` is the (arbitrarily ordered) result of `os.listdir`; `attr` gives
each child's observable attributes. -/
def get_menu_items (names : List String) (attr : String → EntryAttr) : List String :=
  (List.insertionSort strLe names).filter (fun n => (attr n).xok || (attr n).isDir)

/-! ## Navigator (`handle_choice`, `menu_loop` body) -/

/-- The action the navigator loop takes for one line of user input. -/
inductive LoopOutcome where
  /-- `sys.exit code` after the farewell message. -/
  | exit (code : Nat)
  /-- `break`: return to the parent menu level. -/
  | pop
  /-- an inline error message, then redisplay of the same menu. -/
  | errorRedisplay
  /-- recurse into subdirectory `name` as a nested menu. -/
  | enterDir (name : String)
  /-- run executable `name`, then redisplay after an acknowledgment. -/
  | runItem (name : String)
  /-- an uncaught out-of-range list access (`IndexError`). -/
  | indexError
deriving DecidableEq

/-- `handle_choice(choice, menu_items, menu_path)`: dereference the
selected entry only under the guard `1 <= choice <= len(menu_items)`,
else report an invalid choice. The `.indexError` arm models the
`IndexError` that an out-of-range `menu_items[choice - 1]` would raise. -/
def handle_choice (choice : Nat) (menu_items : List String)
    (isDir : String → Bool) : LoopOutcome :=
  if 1 ≤ choice ∧ choice ≤ menu_items.length then
    match menu_items[choice - 1]? with
    | some name => if isDir name then .enterDir name else .runItem name
    | none => .indexError
  else .errorRedisplay

/-- One iteration of the `menu_loop` input handling: strip the raw input,
exit or pop on empty input or on the choice `0`, reject non-digit input
inline, and otherwise dispatch to `handle_choice`. -/
def loop_step (is_top_level : Bool) (menu_items : List String)
    (isDir : String → Bool) (raw : String) : LoopOutcome :=
  let choice_str := stripStr raw
  if choice_str = "" then
    if is_top_level then .exit 0 else .pop
  else if !isdigitStr choice_str then .errorRedisplay
  else
    let choice := strToNat choice_str
    if choice = 0 then
      if is_top_level then .exit 0 else .pop
    else handle_choice choice menu_items isDir

/-- Truth value of "this outcome is not an uncaught `IndexError`". -/
def safeOutcome : LoopOutcome → Bool
  | .indexError => false
  | _ => true

/-! ## Helper lemmas on `takeWhile` and `dropWhile` -/

theorem takeWhile_append_all {α : Type} (p : α → Bool) :
    ∀ (a b : List α), (∀ c ∈ a, p c = true) →
      (a ++ b).takeWhile p = a ++ b.takeWhile p := by
  intro a
  induction a with
  | nil => simp
  | cons x xs ih =>
    intro b h
    have hx : p x = true := h x (by simp)
    simp only [List.cons_append, List.takeWhile_cons, hx, if_true]
    rw [ih b (fun c hc => h c (by simp [hc]))]

theorem dropWhile_append_all {α : Type} (p : α → Bool) :
    ∀ (a b : List α), (∀ c ∈ a, p c = true) →
      (a ++ b).dropWhile p = b.dropWhile p := by
  intro a
  induction a with
  | nil => simp
  | cons x xs ih =>
    intro b h
    have hx : p x = true := h x (by simp)
    simp only [List.cons_append, List.dropWhile_cons, hx, if_true]
    exact ih b (fun c hc => h c (by simp [hc]))

theorem takeWhile_cons_false {α : Type} (p : α → Bool) (c : α) (cs : List α)
    (h : p c = false) : (c :: cs).takeWhile p = [] := by
  simp [List.takeWhile_cons, h]

theorem dropWhile_cons_false {α : Type} (p : α → Bool) (c : α) (cs : List α)
    (h : p c = false) : (c :: cs).dropWhile p = c :: cs := by
  simp [List.dropWhile_cons, h]

theorem mem_takeWhile_sat {α : Type} (p : α → Bool) :
    ∀ (l : List α) (c : α), c ∈ l.takeWhile p → p c = true := by
  intro l
  induction l with
  | nil => simp
  | cons x xs ih =>
    intro c hc
    by_cases hx : p x = true
    · rw [List.takeWhile_cons, if_pos hx] at hc
      rcases List.mem_cons.mp hc with h | h
      · exact h ▸ hx
      · exact ih c h
    · rw [List.takeWhile_cons, if_neg hx] at hc
      exact absurd hc (List.not_mem_nil c)

/-! ## First-match characterization of the metadata scan -/

theorem scanMeta_eq_none_iff (key : String) :
    ∀ lines : List String,
      scanMeta key lines = none ↔ ∀ l ∈ lines, lineMatches key l = false := by
  intro lines
  induction lines with
  | nil => simp [scanMeta]
  | cons x xs ih =>
    simp only [scanMeta]
    by_cases hm : lineMatches key x
    · rw [if_pos hm]
      constructor
      · intro h; cases h
      · intro h
        exact absurd (h x (by simp)) (by simp [hm])
    · rw [if_neg hm, ih]
      constructor
      · intro h l hl
        rcases List.mem_cons.mp hl with h1 | h1
        · rw [h1]; exact Bool.eq_false_iff.mpr hm
        · exact h l h1
      · intro h l hl
        exact h l (by simp [hl])

theorem scanMeta_eq_some_iff (key v : String) :
    ∀ lines : List String,
      scanMeta key lines = some v ↔
        ∃ pre l post, lines = pre ++ l :: post
          ∧ (∀ l' ∈ pre, lineMatches key l' = false)
          ∧ lineMatches key l = true
          ∧ v = ⟨extractValue key l⟩ := by
  intro lines
  induction lines with
  | nil =>
    simp only [scanMeta]
    constructor
    · intro h; cases h
    · rintro ⟨pre, l, post, heq, -⟩
      exact absurd heq.symm (by simp)
  | cons x xs ih =>
    by_cases hm : lineMatches key x
    · simp only [scanMeta, hm, if_true, Option.some.injEq]
      constructor
      · intro h
        exact ⟨[], x, xs, by simp, by simp, hm, h.symm⟩
      · rintro ⟨pre, l, post, heq, hpre, hl, hv⟩
        cases pre with
        | nil =>
          simp only [List.nil_append, List.cons.injEq] at heq
          rw [hv, heq.1]
        | cons p ps =>
          simp only [List.cons_append, List.cons.injEq] at heq
          have := hpre p (by simp)
          rw [← heq.1] at this
          exact absurd hm (by simp [this])
    · rw [scanMeta, if_neg hm, ih]
      constructor
      · rintro ⟨pre, l, post, heq, hpre, hl, hv⟩
        refine ⟨x :: pre, l, post, by simp [heq], ?_, hl, hv⟩
        intro l' hl'
        rcases List.mem_cons.mp hl' with h | h
        · rw [h]; exact Bool.eq_false_iff.mpr hm
        · exact hpre l' h
      · rintro ⟨pre, l, post, heq, hpre, hl, hv⟩
        cases pre with
        | nil =>
          simp only [List.nil_append, List.cons.injEq] at heq
          rw [← heq.1] at hl
          exact absurd hl (by simp [hm])
        | cons p ps =>
          simp only [List.cons_append, List.cons.injEq] at heq
          exact ⟨ps, l, post, heq.2, fun l' h => hpre l' (by simp [h]), hl, hv⟩

/-! ## Claim C1 -/

/-- Claim C1 counterexample: the line `# SUDO: true` does not trim-equal
the literal `# SUDO:true`, yet `needs_sudo` returns true for it, because
the source strips the value after removing the marker. The claimed
equivalence "true iff some line, after trimming, exactly equals
`# SUDO:true`" is therefore false at this file. -/
theorem needs_sudo_claim_counterexample :
    needs_sudo (some ["# SUDO: true"]) = true
  ∧ ∀ l ∈ (["# SUDO: true"] : List String), stripStr l ≠ "# SUDO:true" := by
  decide

/-- Claim C1 (amended): `needs_sudo` returns true iff the first line whose
stripped form starts with `# SUDO:` yields, after removing every
occurrence of `# SUDO:` and stripping whitespace, exactly the string
`true`; every other value or casing of the marker (`false`, `True`,
`TRUE`, `yes`) yields false. -/
theorem needs_sudo_first_marker_characterization :
    ∀ lines : List String,
      (needs_sudo (some lines) = true ↔
        ∃ pre l post, lines = pre ++ l :: post
          ∧ (∀ l' ∈ pre, lineMatches "SUDO" l' = false)
          ∧ lineMatches "SUDO" l = true
          ∧ (⟨extractValue "SUDO" l⟩ : String) = "true")
    ∧ needs_sudo (some ["# SUDO:false"]) = false
    ∧ needs_sudo (some ["# SUDO:True"]) = false
    ∧ needs_sudo (some ["# SUDO:TRUE"]) = false
    ∧ needs_sudo (some ["# SUDO:yes"]) = false := by
  intro lines
  refine ⟨?_, by decide, by decide, by decide, by decide⟩
  have hmain : needs_sudo (some lines) = true ↔ scanMeta "SUDO" lines = some "true" := by
    simp only [needs_sudo, get_metadata]
    cases h : scanMeta "SUDO" lines with
    | none => simp
    | some v => simp [decide_eq_true_eq]
  rw [hmain, scanMeta_eq_some_iff]
  constructor
  · rintro ⟨pre, l, post, heq, hpre, hl, hv⟩
    exact ⟨pre, l, post, heq, hpre, hl, hv.symm⟩
  · rintro ⟨pre, l, post, heq, hpre, hl, hv⟩
    exact ⟨pre, l, post, heq, hpre, hl, hv.symm⟩

/-! ## Claim C2 -/

/-- Claim C2 counterexample: the line `# LABEL:` matches the marker and
its trimmed remainder after the marker is the empty string, yet
`get_label` returns the file's base name instead of that remainder
(the source tests the label for Python truthiness, and `''` is falsy). -/
theorem get_label_claim_counterexample :
    lineMatches "LABEL" "# LABEL:" = true
  ∧ (⟨extractValue "LABEL" "# LABEL:"⟩ : String) = ""
  ∧ get_label (some ["# LABEL:"]) "script.sh" = "script.sh"
  ∧ ("script.sh" : String) ≠ "" := by
  decide

/-- Claim C2 (amended): `get_label` scans the file's lines for the marker
`# LABEL:`; when the first matching line's extracted value (the line with
every occurrence of `# LABEL:` removed, then stripped) is non-empty it is
returned, and when no line matches — or the extracted value is empty —
the file's base name is returned. -/
theorem get_label_first_match_characterization :
    ∀ (lines : List String) (basename : String),
      ((∀ l ∈ lines, lineMatches "LABEL" l = false) →
        get_label (some lines) basename = basename)
    ∧ (∀ pre l post, lines = pre ++ l :: post →
        (∀ l' ∈ pre, lineMatches "LABEL" l' = false) →
        lineMatches "LABEL" l = true →
        get_label (some lines) basename =
          if (⟨extractValue "LABEL" l⟩ : String) = "" then basename
          else ⟨extractValue "LABEL" l⟩) := by
  intro lines basename
  constructor
  · intro h
    have hnone : scanMeta "LABEL" lines = none := (scanMeta_eq_none_iff "LABEL" lines).mpr h
    simp [get_label, get_metadata, hnone]
  · intro pre l post heq hpre hl
    have hsome : scanMeta "LABEL" lines = some ⟨extractValue "LABEL" l⟩ :=
      (scanMeta_eq_some_iff "LABEL" ⟨extractValue "LABEL" l⟩ lines).mpr
        ⟨pre, l, post, heq, hpre, hl, rfl⟩
    simp [get_label, get_metadata, hsome]

/-- Witness for the C2 theorem at a concrete file: a shebang line that
does not match, then `# LABEL: Run Backup`, yields the label `Run Backup`. -/
theorem get_label_first_match_characterization_witness :
    get_label (some ["#!/bin/sh", "# LABEL: Run Backup"]) "b.sh" = "Run Backup" := by
  have h := (get_label_first_match_characterization
      ["#!/bin/sh", "# LABEL: Run Backup"] "b.sh").2
      ["#!/bin/sh"] "# LABEL: Run Backup" [] (by decide) (by decide) (by decide)
  exact h.trans (by decide)

/-! ## Claim C9 -/

/-- Claim C9: every metadata lookup is total with respect to read
failures — an unreadable file (not found, permission denied, or
undecodable) yields `None`, the base-name fallback, the empty argument
list and a false elevation flag respectively — and a non-matching line is
simply skipped without affecting the scan of the remaining lines. -/
theorem metadata_failure_totality :
    ∀ (key basename l : String) (ls : List String),
      get_metadata none key = none
    ∧ get_label none basename = basename
    ∧ get_script_args none = []
    ∧ needs_sudo none = false
    ∧ (lineMatches key l = false →
        get_metadata (some (l :: ls)) key = get_metadata (some ls) key)
    ∧ (parseArgChars (stripChars l.data) = none →
        get_script_args (some (l :: ls)) = get_script_args (some ls)) := by
  intro key basename l ls
  refine ⟨rfl, rfl, rfl, rfl, ?_, ?_⟩
  · intro h
    simp [get_metadata, scanMeta, h]
  · intro h
    simp [get_script_args, List.filterMap_cons, h]

/-- Witness for the C9 theorem: the fallbacks at a concrete unreadable
file, and skipping of the non-matching line `echo hi` in both scans. -/
theorem metadata_failure_totality_witness :
    get_label none "backup.sh" = "backup.sh"
  ∧ get_metadata (some ["echo hi", "# SUDO:true"]) "SUDO"
      = get_metadata (some ["# SUDO:true"]) "SUDO"
  ∧ get_script_args (some ["echo hi", "# ARG: x \"P\" \"D\""])
      = get_script_args (some ["# ARG: x \"P\" \"D\""]) := by
  have h := metadata_failure_totality "SUDO" "backup.sh" "echo hi" ["# SUDO:true"]
  have h2 := metadata_failure_totality "SUDO" "backup.sh" "echo hi" ["# ARG: x \"P\" \"D\""]
  exact ⟨h.2.1, h.2.2.2.2.1 (by decide), h2.2.2.2.2.2 (by decide)⟩

/-! ## Claim C3: characterization of the ARG pattern -/

theorem notSpace_true_iff (c : Char) : notSpace c = true ↔ isSpace c = false := by
  simp [notSpace, isSpace]

theorem notSpace_false_of_isSpace (c : Char) (h : isSpace c = true) :
    notSpace c = false := by
  simp [notSpace, isSpace] at h ⊢
  exact h

theorem dropWhile_head_not {α : Type} (p : α → Bool) :
    ∀ (l : List α) (c : α) (cs : List α), l.dropWhile p = c :: cs → p c = false := by
  intro l
  induction l with
  | nil => intro c cs h; cases h
  | cons x xs ih =>
    intro c cs h
    by_cases hx : p x = true
    · rw [List.dropWhile_cons, if_pos hx] at h
      exact ih c cs h
    · rw [List.dropWhile_cons, if_neg hx] at h
      cases h
      exact Bool.eq_false_iff.mpr hx

theorem dropLiteral_eq_some_iff :
    ∀ (pat cs rest : List Char), dropLiteral pat cs = some rest ↔ cs = pat ++ rest := by
  intro pat
  induction pat with
  | nil =>
    intro cs rest
    simp [dropLiteral, eq_comm]
  | cons p ps ih =>
    intro cs rest
    cases cs with
    | nil => simp [dropLiteral]
    | cons c cs' =>
      simp only [dropLiteral]
      by_cases hc : c = p
      · rw [if_pos hc, ih cs' rest]
        subst hc
        simp
      · rw [if_neg hc]
        simp only [List.cons_append, List.cons.injEq]
        constructor
        · intro h; cases h
        · rintro ⟨h1, -⟩; exact absurd h1 hc

theorem quoted_eq_some_iff (cs content rest : List Char) :
    quoted cs = some (content, rest) ↔
      cs = content ++ '"' :: rest ∧ ∀ c ∈ content, notQuote c = true := by
  constructor
  · intro h
    unfold quoted at h
    split at h
    · cases h
    · rename_i q tail hd
      split at h
      · rename_i hq
        simp only [Option.some.injEq, Prod.mk.injEq] at h
        obtain ⟨h1, h2⟩ := h
        subst hq
        constructor
        · conv_lhs => rw [← List.takeWhile_append_dropWhile notQuote cs]
          rw [hd, h1, h2]
        · intro c hc
          rw [← h1] at hc
          exact mem_takeWhile_sat notQuote cs c hc
      · cases h
  · rintro ⟨hcs, hfree⟩
    have hq : notQuote '"' = false := by decide
    have htw : cs.takeWhile notQuote = content := by
      rw [hcs, takeWhile_append_all notQuote content _ hfree,
        takeWhile_cons_false notQuote _ _ hq, List.append_nil]
    have hdw : cs.dropWhile notQuote = '"' :: rest := by
      rw [hcs, dropWhile_append_all notQuote content _ hfree,
        dropWhile_cons_false notQuote _ _ hq]
    unfold quoted
    rw [hdw]
    simp [htw]

/-- All characters of the list are whitespace. -/
def allSpace (cs : List Char) : Prop := ∀ c ∈ cs, isSpace c = true

theorem wsThenQuote_eq_some_iff (cs rest : List Char) :
    wsThenQuote cs = some rest ↔
      ∃ ws, cs = ws ++ '"' :: rest ∧ allSpace ws ∧ ws ≠ [] := by
  constructor
  · intro h
    unfold wsThenQuote at h
    by_cases hsp : headSpace cs = true
    · rw [if_pos hsp] at h
      split at h
      · cases h
      · rename_i q tail hd
        split at h
        · rename_i hq
          injection h with h2
          subst hq
          refine ⟨cs.takeWhile isSpace, ?_, ?_, ?_⟩
          · conv_lhs => rw [← List.takeWhile_append_dropWhile isSpace cs]
            rw [hd, h2]
          · intro x hx
            exact mem_takeWhile_sat isSpace _ x hx
          · cases cs with
            | nil => simp [headSpace] at hsp
            | cons c cs' =>
              have hc : isSpace c = true := by simpa [headSpace] using hsp
              rw [List.takeWhile_cons, if_pos hc]
              exact List.cons_ne_nil _ _
        · cases h
    · rw [if_neg hsp] at h; cases h
  · rintro ⟨ws, hcs, hws, hne⟩
    obtain ⟨w, ws', rfl⟩ : ∃ a l, ws = a :: l := by
      cases ws with
      | nil => exact absurd rfl hne
      | cons a l => exact ⟨a, l, rfl⟩
    have hw : isSpace w = true := hws w (by simp)
    have hdw : ((w :: ws') ++ '"' :: rest).dropWhile isSpace = '"' :: rest := by
      rw [dropWhile_append_all isSpace _ _ hws,
        dropWhile_cons_false isSpace _ _ (by decide)]
    subst hcs
    have hhead : headSpace ((w :: ws') ++ '"' :: rest) = true := by
      simp [headSpace, hw]
    unfold wsThenQuote
    rw [if_pos hhead, hdw]
    simp

/-- Declarative reading of the (amended) ARG pattern: the line decomposes
as `# ARG:` + optional whitespace + a nonempty whitespace-free name +
whitespace + a double-quoted prompt + whitespace + a double-quoted
default + arbitrary trailing text, where prompt and default contain no
double quote at all. -/
def argDecomp (cs name prompt dflt : List Char) : Prop :=
  ∃ ws1 ws2 ws3 rest : List Char,
    cs = argMarker ++ ws1 ++ name ++ ws2
          ++ '"' :: (prompt ++ '"' :: (ws3 ++ '"' :: (dflt ++ '"' :: rest)))
    ∧ allSpace ws1 ∧ allSpace ws2 ∧ ws2 ≠ [] ∧ allSpace ws3 ∧ ws3 ≠ []
    ∧ name ≠ [] ∧ (∀ c ∈ name, notSpace c = true)
    ∧ (∀ c ∈ prompt, notQuote c = true) ∧ (∀ c ∈ dflt, notQuote c = true)

theorem parseArgChars_eq_some_iff (cs name prompt dflt : List Char) :
    parseArgChars cs = some (⟨name⟩, ⟨prompt⟩, ⟨dflt⟩) ↔
      argDecomp cs name prompt dflt := by
  constructor
  · intro h
    unfold parseArgChars at h
    cases hdl : dropLiteral argMarker cs with
    | none => rw [hdl] at h; cases h
    | some cs1 =>
      rw [hdl] at h
      simp only [Option.some_bind] at h
      by_cases hni : ((cs1.dropWhile isSpace).takeWhile notSpace).isEmpty = true
      · rw [if_pos hni] at h; cases h
      · rw [if_neg hni] at h
        cases hw1 : wsThenQuote ((cs1.dropWhile isSpace).dropWhile notSpace) with
        | none => rw [hw1] at h; cases h
        | some rest1 =>
          rw [hw1] at h
          simp only [Option.some_bind] at h
          cases hq1 : quoted rest1 with
          | none => rw [hq1] at h; cases h
          | some pc =>
            rw [hq1] at h
            simp only [Option.some_bind] at h
            cases hw2 : wsThenQuote pc.2 with
            | none => rw [hw2] at h; cases h
            | some rest2 =>
              rw [hw2] at h
              simp only [Option.some_bind] at h
              cases hq2 : quoted rest2 with
              | none => rw [hq2] at h; cases h
              | some dc =>
                rw [hq2] at h
                simp only [Option.some_bind, Option.some.injEq, Prod.mk.injEq] at h
                obtain ⟨hn', hp', hd2'⟩ := h
                have hn : (cs1.dropWhile isSpace).takeWhile notSpace = name :=
                  congrArg String.data hn'
                have hp : pc.1 = prompt := congrArg String.data hp'
                have hd2 : dc.1 = dflt := congrArg String.data hd2'
                obtain ⟨ws2, hcs3, hws2, hws2ne⟩ :=
                  (wsThenQuote_eq_some_iff _ rest1).mp hw1
                obtain ⟨hrest1, hpfree⟩ := (quoted_eq_some_iff rest1 pc.1 pc.2).mp hq1
                obtain ⟨ws3, hcs4, hws3, hws3ne⟩ :=
                  (wsThenQuote_eq_some_iff pc.2 rest2).mp hw2
                obtain ⟨hrest2, hdfree⟩ := (quoted_eq_some_iff rest2 dc.1 dc.2).mp hq2
                have hcs : cs = argMarker ++ cs1 :=
                  (dropLiteral_eq_some_iff argMarker cs cs1).mp hdl
                refine ⟨cs1.takeWhile isSpace, ws2, ws3, dc.2, ?_, ?_, hws2, hws2ne,
                  hws3, hws3ne, ?_, ?_, ?_, ?_⟩
                · calc cs = argMarker ++ cs1 := hcs
                    _ = argMarker ++ (cs1.takeWhile isSpace ++ cs1.dropWhile isSpace) := by
                        rw [List.takeWhile_append_dropWhile]
                    _ = argMarker ++ (cs1.takeWhile isSpace
                          ++ (name ++ (cs1.dropWhile isSpace).dropWhile notSpace)) := by
                        rw [← hn,
                          List.takeWhile_append_dropWhile notSpace (cs1.dropWhile isSpace)]
                    _ = argMarker ++ (cs1.takeWhile isSpace
                          ++ (name ++ (ws2 ++ '"' :: rest1))) := by rw [hcs3]
                    _ = argMarker ++ (cs1.takeWhile isSpace
                          ++ (name ++ (ws2 ++ '"' :: (pc.1 ++ '"' :: pc.2)))) := by
                        rw [hrest1]
                    _ = argMarker ++ (cs1.takeWhile isSpace ++ (name ++ (ws2
                          ++ '"' :: (prompt ++ '"' :: (ws3 ++ '"' :: rest2))))) := by
                        rw [hp, hcs4]
                    _ = argMarker ++ (cs1.takeWhile isSpace ++ (name ++ (ws2
                          ++ '"' :: (prompt ++ '"' :: (ws3
                            ++ '"' :: (dflt ++ '"' :: dc.2)))))) := by
                        rw [hrest2, hd2]
                    _ = argMarker ++ cs1.takeWhile isSpace ++ name ++ ws2
                          ++ '"' :: (prompt ++ '"' :: (ws3 ++ '"' :: (dflt ++ '"' :: dc.2))) := by
                        simp [List.append_assoc]
                · intro x hx
                  exact mem_takeWhile_sat isSpace cs1 x hx
                · intro hnil
                  rw [hnil] at hn
                  exact hni (by rw [hn]; rfl)
                · intro x hx
                  rw [← hn] at hx
                  exact mem_takeWhile_sat notSpace _ x hx
                · rw [← hp]; exact hpfree
                · rw [← hd2]; exact hdfree
  · rintro ⟨ws1, ws2, ws3, rest, hcs, hws1, hws2, hws2ne, hws3, hws3ne, hnne, hnsp,
      hpfree, hdfree⟩
    obtain ⟨n0, name', rfl⟩ : ∃ a l, name = a :: l := by
      cases name with
      | nil => exact absurd rfl hnne
      | cons a l => exact ⟨a, l, rfl⟩
    obtain ⟨w2, ws2', rfl⟩ : ∃ a l, ws2 = a :: l := by
      cases ws2 with
      | nil => exact absurd rfl hws2ne
      | cons a l => exact ⟨a, l, rfl⟩
    have hn0 : isSpace n0 = false :=
      (notSpace_true_iff n0).mp (hnsp n0 (by simp))
    have hw2sp : isSpace w2 = true := hws2 w2 (by simp)
    have hnq : notSpace w2 = false := notSpace_false_of_isSpace w2 hw2sp
    have hdl : dropLiteral argMarker cs
        = some (ws1 ++ ((n0 :: name') ++ (w2 :: (ws2'
            ++ '"' :: (prompt ++ '"' :: (ws3 ++ '"' :: (dflt ++ '"' :: rest))))))) := by
      apply (dropLiteral_eq_some_iff _ _ _).mpr
      rw [hcs]
      simp [List.append_assoc]
    have hdw1 : (ws1 ++ ((n0 :: name') ++ (w2 :: (ws2'
          ++ '"' :: (prompt ++ '"' :: (ws3 ++ '"' :: (dflt ++ '"' :: rest))))))).dropWhile isSpace
        = (n0 :: name') ++ (w2 :: (ws2'
            ++ '"' :: (prompt ++ '"' :: (ws3 ++ '"' :: (dflt ++ '"' :: rest))))) := by
      rw [dropWhile_append_all isSpace _ _ hws1, List.cons_append,
        dropWhile_cons_false isSpace _ _ hn0]
    have htw : ((n0 :: name') ++ (w2 :: (ws2'
          ++ '"' :: (prompt ++ '"' :: (ws3 ++ '"' :: (dflt ++ '"' :: rest)))))).takeWhile notSpace
        = n0 :: name' := by
      rw [takeWhile_append_all notSpace _ _ hnsp,
        takeWhile_cons_false notSpace _ _ hnq, List.append_nil]
    have hdwN : ((n0 :: name') ++ (w2 :: (ws2'
          ++ '"' :: (prompt ++ '"' :: (ws3 ++ '"' :: (dflt ++ '"' :: rest)))))).dropWhile notSpace
        = w2 :: (ws2' ++ '"' :: (prompt ++ '"' :: (ws3 ++ '"' :: (dflt ++ '"' :: rest)))) := by
      rw [dropWhile_append_all notSpace _ _ hnsp,
        dropWhile_cons_false notSpace _ _ hnq]
    have hw1 : wsThenQuote (w2 :: (ws2'
          ++ '"' :: (prompt ++ '"' :: (ws3 ++ '"' :: (dflt ++ '"' :: rest)))))
        = some (prompt ++ '"' :: (ws3 ++ '"' :: (dflt ++ '"' :: rest))) :=
      (wsThenQuote_eq_some_iff _ _).mpr ⟨w2 :: ws2', rfl, hws2, List.cons_ne_nil _ _⟩
    have hq1 : quoted (prompt ++ '"' :: (ws3 ++ '"' :: (dflt ++ '"' :: rest)))
        = some (prompt, ws3 ++ '"' :: (dflt ++ '"' :: rest)) :=
      (quoted_eq_some_iff _ _ _).mpr ⟨rfl, hpfree⟩
    have hw2q : wsThenQuote (ws3 ++ '"' :: (dflt ++ '"' :: rest))
        = some (dflt ++ '"' :: rest) :=
      (wsThenQuote_eq_some_iff _ _).mpr ⟨ws3, rfl, hws3, hws3ne⟩
    have hq2 : quoted (dflt ++ '"' :: rest) = some (dflt, rest) :=
      (quoted_eq_some_iff _ _ _).mpr ⟨rfl, hdfree⟩
    unfold parseArgChars
    rw [hdl]
    simp only [Option.some_bind, hdw1, htw, hdwN]
    rw [if_neg (by simp)]
    rw [hw1]
    simp only [Option.some_bind]
    rw [hq1]
    simp only [Option.some_bind]
    rw [hw2q]
    simp only [Option.some_bind]
    rw [hq2]
    simp only [Option.some_bind]

theorem parseArgChars_eq_some_iff_triple (cs : List Char) (t : String × String × String) :
    parseArgChars cs = some t ↔ argDecomp cs t.1.data t.2.1.data t.2.2.data := by
  obtain ⟨⟨n⟩, ⟨p⟩, ⟨d⟩⟩ := t
  exact parseArgChars_eq_some_iff cs n p d

theorem get_script_args_singleton (l : String) :
    get_script_args (some [l]) = (parseArgChars (stripChars l.data)).toList := by
  cases hp : parseArgChars (stripChars l.data) with
  | none => simp [get_script_args, hp]
  | some u => simp [get_script_args, hp]

/-- Claim C3 (amended): `get_script_args` returns exactly the
`(name, prompt, default)` triples of the lines matching the pattern
`# ARG: <name> "<prompt>" "<default>"` — name a contiguous nonempty
non-whitespace token, prompt and default double-quoted strings that may
contain any character **except a double quote** (no escape sequence is
recognized), arbitrary trailing text allowed — in file order, keeping all
matches including duplicate names, and skipping non-matching lines. -/
theorem get_script_args_pattern_characterization :
    (∀ (l : String) (t : String × String × String),
        get_script_args (some [l]) = [t] ↔
          argDecomp (stripChars l.data) t.1.data t.2.1.data t.2.2.data)
  ∧ (∀ l : String, get_script_args (some [l]) = [] ↔
        ∀ n p d : List Char, ¬ argDecomp (stripChars l.data) n p d)
  ∧ (∀ (l : String) (ls : List String),
        get_script_args (some (l :: ls))
          = get_script_args (some [l]) ++ get_script_args (some ls)) := by
  refine ⟨?_, ?_, ?_⟩
  · intro l t
    rw [get_script_args_singleton]
    cases hp : parseArgChars (stripChars l.data) with
    | none =>
      simp only [Option.toList_none]
      constructor
      · intro h; cases h
      · intro hd
        have := (parseArgChars_eq_some_iff_triple (stripChars l.data) t).mpr hd
        rw [hp] at this; cases this
    | some u =>
      simp only [Option.toList_some, List.cons.injEq, and_true]
      constructor
      · intro h
        rw [← h]
        exact (parseArgChars_eq_some_iff_triple _ u).mp hp
      · intro hd
        have := (parseArgChars_eq_some_iff_triple _ t).mpr hd
        rw [hp] at this
        exact Option.some.inj this
  · intro l
    rw [get_script_args_singleton]
    cases hp : parseArgChars (stripChars l.data) with
    | none =>
      simp only [Option.toList_none, true_iff]
      intro n p d hd
      have := (parseArgChars_eq_some_iff _ n p d).mpr hd
      rw [hp] at this; cases this
    | some u =>
      simp only [Option.toList_some]
      constructor
      · intro h; cases h
      · intro hall
        exfalso
        exact hall u.1.data u.2.1.data u.2.2.data
          ((parseArgChars_eq_some_iff_triple _ u).mp hp)
  · intro l ls
    rw [get_script_args_singleton]
    cases hp : parseArgChars (stripChars l.data) with
    | none => simp [get_script_args, hp]
    | some u => simp [get_script_args, hp]

/-- Modelled from the claim (C3): a double-quoted string whose content
may contain any character except an **unescaped** closing double quote; a
backslash-escaped quote stays part of the content. Returns the raw
content and the characters after the closing quote. -/
def specQuoted : List Char → Option (List Char × List Char)
  | [] => none
  | '\\' :: '"' :: rest =>
    (specQuoted rest).map fun p => ('\\' :: '"' :: p.1, p.2)
  | '"' :: rest => some ([], rest)
  | c :: rest => (specQuoted rest).map fun p => (c :: p.1, p.2)

/-- Modelled from the claim (C3): the claimed per-line pattern
`# ARG: <name> "<prompt>" "<default>"`, identical to the source's scan
except that the quoted strings follow `specQuoted`, i.e. admit escaped
quotes as the claim states. -/
def specArgLine (cs0 : List Char) : Option (String × String × String) :=
  (dropLiteral argMarker cs0).bind fun cs1 =>
    let name := (cs1.dropWhile isSpace).takeWhile notSpace
    if name.isEmpty then none
    else
      (wsThenQuote ((cs1.dropWhile isSpace).dropWhile notSpace)).bind fun rest1 =>
        (specQuoted rest1).bind fun pc =>
          (wsThenQuote pc.2).bind fun rest2 =>
            (specQuoted rest2).bind fun dc =>
              some (⟨name⟩, ⟨pc.1⟩, ⟨dc.1⟩)

/-- Claim C3 counterexample: the line `# ARG: n "say \"hi\"" "d"` matches
the claimed pattern — its prompt contains only escaped quotes — yet
`get_script_args` returns no triple for it, because the source regex
forbids every double quote, escaped or not, inside the quoted groups. -/
theorem get_script_args_claim_counterexample :
    specArgLine (stripChars ("# ARG: n \"say \\\"hi\\\"\" \"d\"").data)
      = some ("n", "say \\\"hi\\\"", "d")
  ∧ get_script_args (some ["# ARG: n \"say \\\"hi\\\"\" \"d\""]) = [] := by
  decide

/-! ## Claim C4 -/

/-- Modelled from the claim (C4): collection that records the **trimmed**
input when non-empty, else the default — the behaviour the claim asserts
of the source. -/
def collect_args_claimed :
    List (String × String × String) → List String → Option (List String)
  | [], _ => some []
  | _ :: _, [] => none
  | (_, _, d) :: specs, inp :: inputs =>
    match collect_args_claimed specs inputs with
    | none => none
    | some vals => some ((if stripStr inp = "" then d else stripStr inp) :: vals)

/-- Claim C4 counterexample: for the spec `("x", "Prompt", "5")` and the
input line `  7  `, the source records the raw string `  7  ` — it never
trims the input — while the claim asserts the trimmed value `7`. -/
theorem collect_args_claim_counterexample :
    (collect_args [("x", "Prompt", "5")] ["  7  "]).map Prod.fst = some ["  7  "]
  ∧ collect_args_claimed [("x", "Prompt", "5")] ["  7  "] = some ["7"]
  ∧ (["  7  "] : List String) ≠ ["7"] := by decide

/-- Claim C4 (amended): for every spec list and sufficient input lines,
argument collection produces one value per spec in declared order — the
**raw** input line when it is non-empty, otherwise the spec's default
verbatim — and renders exactly one `(prompt, default)` pair per spec; an
empty spec list yields the empty sequence and no prompts at all. -/
theorem collect_args_raw_or_default :
    ∀ (specs : List (String × String × String)) (inputs : List String),
      specs.length ≤ inputs.length →
      collect_args specs inputs =
        some (List.zipWith (fun s i => if i = "" then s.2.2 else i) specs inputs,
          specs.map fun s => (s.2.1, s.2.2)) := by
  intro specs
  induction specs with
  | nil => intro inputs _; rfl
  | cons s specs ih =>
    intro inputs hlen
    cases inputs with
    | nil => simp at hlen
    | cons i inputs' =>
      have hlen' : specs.length ≤ inputs'.length := by
        simp only [List.length_cons] at hlen
        omega
      obtain ⟨n, p, d⟩ := s
      simp only [collect_args, ih inputs' hlen', List.zipWith_cons_cons, List.map_cons]

/-- Witness for the C4 theorem at the spec's round-trip example: with the
spec `("x", "Prompt", "5")`, an empty input line collects `5` and a `7`
input collects `7`. -/
theorem collect_args_raw_or_default_witness :
    collect_args [("x", "Prompt", "5")] [""] = some (["5"], [("Prompt", "5")])
  ∧ collect_args [("x", "Prompt", "5")] ["7"] = some (["7"], [("Prompt", "5")]) := by
  constructor
  · exact (collect_args_raw_or_default [("x", "Prompt", "5")] [""] (by decide)).trans
      (by decide)
  · exact (collect_args_raw_or_default [("x", "Prompt", "5")] ["7"] (by decide)).trans
      (by decide)

/-! ## Claim C5 -/

/-- Claim C5: the constructed command is exactly the two tokens `sudo`
and `-E` when elevation is required (zero tokens otherwise), followed by
the target path, followed by the collected arguments in order and
unmodified, each a discrete argv token. -/
theorem build_command_tokens :
    ∀ (path : String) (file : Option (List String)) (args : List String),
      build_command path file args =
        (if needs_sudo file then ["sudo", "-E"] else []) ++ path :: args := by
  intro path file args
  unfold build_command
  cases h : needs_sudo file <;> simp [h]

/-! ## Claim C6 -/

theorem lexLe_total : ∀ a b : List Char, lexLe a b = true ∨ lexLe b a = true := by
  intro a
  induction a with
  | nil => intro b; left; rfl
  | cons x xs ih =>
    intro b
    cases b with
    | nil => right; rfl
    | cons y ys =>
      by_cases hxy : x.toNat < y.toNat
      · left; simp [lexLe, hxy]
      · by_cases hyx : y.toNat < x.toNat
        · right; simp [lexLe, hyx]
        · rcases ih ys with h | h
          · left; simp [lexLe, hxy, hyx, h]
          · right; simp [lexLe, hyx, hxy, h]

theorem lexLe_trans : ∀ a b c : List Char,
    lexLe a b = true → lexLe b c = true → lexLe a c = true := by
  intro a
  induction a with
  | nil => intro b c _ _; rfl
  | cons x xs ih =>
    intro b c hab hbc
    cases b with
    | nil => simp [lexLe] at hab
    | cons y ys =>
      cases c with
      | nil => simp [lexLe] at hbc
      | cons z zs =>
        simp only [lexLe] at hab hbc ⊢
        by_cases hxy : x.toNat < y.toNat
        · by_cases hyz : y.toNat < z.toNat
          · rw [if_pos (by omega : x.toNat < z.toNat)]
          · by_cases hzy : z.toNat < y.toNat
            · rw [if_neg hyz, if_pos hzy] at hbc
              cases hbc
            · rw [if_pos (by omega : x.toNat < z.toNat)]
        · by_cases hyx : y.toNat < x.toNat
          · rw [if_neg hxy, if_pos hyx] at hab
            cases hab
          · rw [if_neg hxy, if_neg hyx] at hab
            by_cases hyz : y.toNat < z.toNat
            · rw [if_pos (by omega : x.toNat < z.toNat)]
            · by_cases hzy : z.toNat < y.toNat
              · rw [if_neg hyz, if_pos hzy] at hbc
                cases hbc
              · rw [if_neg hyz, if_neg hzy] at hbc
                rw [if_neg (by omega : ¬x.toNat < z.toNat),
                  if_neg (by omega : ¬z.toNat < x.toNat)]
                exact ih ys zs hab hbc

instance : IsTotal String strLe :=
  ⟨fun a b => lexLe_total a.data b.data⟩

instance : IsTrans String strLe :=
  ⟨fun a b c => lexLe_trans a.data b.data c.data⟩

/-- Claim C6 counterexample: a child that is neither a directory nor a
regular file but passes the execute probe — e.g. a FIFO with mode `0777`,
on which `os.access(path, X_OK)` succeeds — IS returned by
`get_menu_items`, although the claimed inclusion rule ("a directory, or a
regular file with execute permission") excludes it. -/
theorem get_menu_items_claim_counterexample :
    get_menu_items ["fifo"] (fun _ => ⟨false, false, true⟩) = ["fifo"]
  ∧ ((fun _ => (⟨false, false, true⟩ : EntryAttr)) "fifo").isDir = false
  ∧ ((fun _ => (⟨false, false, true⟩ : EntryAttr)) "fifo").isReg = false := by
  exact ⟨rfl, rfl, rfl⟩

/-- Claim C6 (amended): `get_menu_items` returns the names of the
directory's children sorted ascending in lexicographic (code point)
order, and a child appears iff it is a directory or the `os.access`
execute probe succeeds on it — whatever its file type; in particular a
non-executable plain file never appears. -/
theorem get_menu_items_sorted_and_membership :
    ∀ (names : List String) (attr : String → EntryAttr),
      (get_menu_items names attr).Sorted strLe
    ∧ (∀ n, n ∈ get_menu_items names attr ↔
          n ∈ names ∧ ((attr n).isDir = true ∨ (attr n).xok = true))
    ∧ (∀ n ∈ names, (attr n).isDir = false → (attr n).isReg = true →
          (attr n).xok = false → n ∉ get_menu_items names attr) := by
  intro names attr
  have hsort : (List.insertionSort strLe names).Sorted strLe :=
    List.sorted_insertionSort strLe names
  have hperm : List.Perm (List.insertionSort strLe names) names :=
    List.perm_insertionSort strLe names
  have hmem : ∀ n, n ∈ get_menu_items names attr ↔
      n ∈ names ∧ ((attr n).isDir = true ∨ (attr n).xok = true) := by
    intro n
    rw [get_menu_items, List.mem_filter, hperm.mem_iff, Bool.or_eq_true]
    tauto
  refine ⟨List.Pairwise.filter _ hsort, hmem, ?_⟩
  intro n hn hdir hreg hxok hin
  rcases (hmem n).mp hin with ⟨-, h | h⟩
  · rw [hdir] at h; cases h
  · rw [hxok] at h; cases h

/-- Witness for the C6 theorem: a non-executable regular file named
`plain` is absent from the listing of a directory containing it. -/
theorem get_menu_items_sorted_and_membership_witness :
    ("plain" : String) ∉ get_menu_items ["plain"] (fun _ => ⟨false, true, false⟩) :=
  (get_menu_items_sorted_and_membership ["plain"] (fun _ => ⟨false, true, false⟩)).2.2
    "plain" (by simp) rfl rfl rfl

/-! ## Claim C7 -/

/-- Claim C7: empty input and the numeric input `0` behave identically at
every level — at the top level the navigator terminates the program with
exit code 0 (after the farewell message), at a nested level it pops
exactly one level back to the parent without terminating. -/
theorem zero_and_empty_input_equivalent :
    ∀ (is_top : Bool) (items : List String) (isDir : String → Bool),
      loop_step is_top items isDir "0" = loop_step is_top items isDir ""
    ∧ loop_step true items isDir "" = .exit 0
    ∧ loop_step false items isDir "" = .pop := by
  intro is_top items isDir
  refine ⟨?_, rfl, rfl⟩
  cases is_top <;> rfl

/-! ## Claim C8 -/

/-- Claim C8 counterexample: the input `0` is non-empty and numeric with
a value outside `1..count`, yet at a nested level the navigator pops to
the parent menu (and at the top level it exits) rather than printing an
inline error and redisplaying the same level. -/
theorem invalid_input_claim_counterexample :
    stripStr "0" ≠ ""
  ∧ isdigitStr (stripStr "0") = true
  ∧ ¬(1 ≤ strToNat (stripStr "0")
        ∧ strToNat (stripStr "0") ≤ (["a"] : List String).length)
  ∧ loop_step false ["a"] (fun _ => false) "0" = .pop
  ∧ LoopOutcome.pop ≠ .errorRedisplay := by decide

/-- Claim C8 (amended): for every non-empty input that is either
non-numeric, or numeric with a **nonzero** value outside `1..count` of
the current render, the navigator prints an inline error and redisplays
the same menu level — such inputs never leave the loop and never change
the level. -/
theorem invalid_input_redisplays :
    ∀ (is_top : Bool) (items : List String) (isDir : String → Bool) (raw : String),
      stripStr raw ≠ "" →
      (isdigitStr (stripStr raw) = false ∨
        (isdigitStr (stripStr raw) = true ∧ strToNat (stripStr raw) ≠ 0 ∧
          ¬(1 ≤ strToNat (stripStr raw) ∧ strToNat (stripStr raw) ≤ items.length))) →
      loop_step is_top items isDir raw = .errorRedisplay := by
  intro is_top items isDir raw hne hbad
  simp only [loop_step]
  rw [if_neg hne]
  rcases hbad with hnd | ⟨hd, hnz, hrange⟩
  · rw [hnd]
    rfl
  · rw [hd]
    simp only [Bool.not_true]
    rw [if_neg Bool.false_ne_true, if_neg hnz]
    simp only [handle_choice]
    rw [if_neg hrange]

/-- Witness for the C8 theorem: the non-numeric input `abc` and the
out-of-range numeric input `99` both leave a three-entry menu unchanged,
reporting an inline error. -/
theorem invalid_input_redisplays_witness :
    loop_step true ["a", "b", "c"] (fun _ => false) "abc" = .errorRedisplay
  ∧ loop_step false ["a", "b", "c"] (fun _ => false) "99" = .errorRedisplay := by
  constructor
  · exact invalid_input_redisplays true ["a", "b", "c"] (fun _ => false) "abc"
      (by decide) (Or.inl (by decide))
  · exact invalid_input_redisplays false ["a", "b", "c"] (fun _ => false) "99"
      (by decide) (Or.inr (by decide))

/-! ## Claim C10 -/

theorem handle_choice_safe (choice : Nat) (items : List String)
    (isDir : String → Bool) :
    safeOutcome (handle_choice choice items isDir) = true := by
  unfold handle_choice
  by_cases hg : 1 ≤ choice ∧ choice ≤ items.length
  · rw [if_pos hg]
    have hlt : choice - 1 < items.length := by omega
    simp only [List.getElem?_eq_getElem hlt]
    split
    · rfl
    · rfl
  · rw [if_neg hg]
    rfl

/-- Claim C10: the list access `menu_items[choice - 1]` in
`handle_choice` is always in bounds — the dereference happens only under
the guard `1 <= choice <= len(menu_items)` (every other input falls to
the invalid-choice, exit or pop branches), so no user input ever reaches
the `IndexError` outcome. -/
theorem menu_selection_index_safe :
    ∀ (is_top : Bool) (items : List String) (isDir : String → Bool)
      (raw : String) (choice : Nat),
      safeOutcome (handle_choice choice items isDir) = true
    ∧ safeOutcome (loop_step is_top items isDir raw) = true := by
  intro is_top items isDir raw choice
  refine ⟨handle_choice_safe choice items isDir, ?_⟩
  simp only [loop_step]
  split
  · split
    · rfl
    · rfl
  · split
    · rfl
    · split
      · split
        · rfl
        · rfl
      · exact handle_choice_safe _ items isDir
